import Mathlib

/-!
Verification development for the vox speech path of the Rail Announcements
Generator: the `Resolver` (phrase tree to vox keys) and the `VoxEngine`
(streaming playback of vox keys).  The definitions below are shallow
embeddings of src/js/speech/voxEngine.ts and of the Resolver class;
stateful engine code becomes explicit state passing with an event-step
relation, and machine-external effects (fetches, playback, cancellation)
are recorded in explicit logs so that the theorems can speak about them.

Silence durations: every duration literal in the source (0.2, 0.25, 0.15,
0.125, 0.075, 0.65 seconds) is an exact multiple of one thousandth of a
second, and the source never performs arithmetic on durations - it only
distinguishes numbers from strings with typeof checks and JavaScript
truthiness.  A duration is therefore embedded exactly as its integer
number of milliseconds (0.2 s becomes 200).
-/

/-- A vox key is either a segment reference (a string) or a silence
duration (a number), mirroring the source union type string | number.
The duration is in integer milliseconds (see the file comment). -/
inductive VoxKey
  | seg (s : String)
  | silence (ms : Nat)
deriving DecidableEq, Repr

/-- Whether a key is a numeric silence, mirroring a typeof check for
number on a vox key. -/
def VoxKey.isSilence : VoxKey → Bool
  | .seg _ => false
  | .silence _ => true

/-- JavaScript truthiness of a vox key: an empty string and the number 0
are falsy, everything else is truthy. -/
def VoxKey.truthy : VoxKey → Bool
  | .seg s => if s = "" then false else true
  | .silence q => if q = 0 then false else true

/-- JavaScript string interpolation of a possibly missing value: a missing
(undefined) value renders as the literal text undefined. -/
def jsStrOpt : Option String → String
  | none => "undefined"
  | some s => s

/-- JavaScript truthiness of a possibly missing string: undefined and the
empty string are falsy. -/
def jsTruthyStr : Option String → Bool
  | none => false
  | some s => if s = "" then false else true

/-! ## Resolver

The Resolver walks an already flattened list of speakable nodes (the
flattening itself is a DOM TreeWalker over the live document; the claims
are stated over the flattened list, which is what the per-node resolution
and the look-ahead operate on).  Each node carries its textContent (used
by the look-ahead and by text/vox resolution) together with the data the
resolver reads for its type.  External lookups that live outside src/
(RAG.state getters, Strings.filename) are carried as already-resolved
node data; the station database lookup RAG.database.getStationVox is
passed as a function parameter getVox. -/

/-- The per-type data of a speakable node, mirroring the switch on the
data-type attribute in Resolver.resolve.  Values read from external state
(coach letter, excuse key, integer value, platform digit and letter,
service key, station code, station list codes, time value, vox key) are
carried already looked up. -/
inductive NodeData
  | textNode (parentType parentRef : String) (psetIdx : Option String) (nodeIdx : Nat)
  | coach (coachLetter : String)
  | excuse (excuseKey : String)
  | integer (value : Int) (singular plural : Option String)
  | named (namedKey : String)
  | platform (digit : String) (letter : String)
  | service (serviceKey : String)
  | station (code : String)
  | stationList (codes : List String) (ctx : String)
  | time (value : String)
  | vox (key : String)
  | unknownType
deriving DecidableEq, Repr

/-- A flattened speakable node: its textContent plus its typed data. -/
structure SpeakNode where
  textContent : String
  data : NodeData
deriving DecidableEq, Repr

/-- JavaScript String.prototype.startsWith with a literal argument (the
source only ever tests for a leading full stop).  Defined on the
character list so that it evaluates by kernel reduction. -/
def jsStartsWith (pre s : String) : Bool :=
  pre.data.isPrefixOf s.data

/-- JavaScript String.prototype.endsWith with a literal argument. -/
def jsEndsWith (suf s : String) : Bool :=
  suf.data.isSuffixOf s.data

/-- JavaScript String.prototype.trim: strip whitespace from both ends. -/
def jsTrim (s : String) : String :=
  String.mk (((s.data.dropWhile Char.isWhitespace).reverse.dropWhile
    Char.isWhitespace).reverse)

/-- Helper for jsSplitChar: walk the characters, cutting at the
separator; the accumulator holds the current piece reversed. -/
def jsSplitCharAux (c : Char) : List Char → List Char → List String
  | [], acc => [String.mk acc.reverse]
  | x :: xs, acc =>
    if x = c then String.mk acc.reverse :: jsSplitCharAux c xs []
    else jsSplitCharAux c xs (x :: acc)

/-- JavaScript String.prototype.split with a one-character separator (the
source splits a time value on a colon): consecutive separators yield
empty pieces and the empty string splits to one empty piece. -/
def jsSplitChar (c : Char) (s : String) : List String :=
  jsSplitCharAux c s.data []

/-- Helper for Strings.clean: the maximal runs of non-whitespace
characters, in order. -/
def wsWords : List Char → List Char → List (List Char)
  | [], acc => if acc = [] then [] else [acc.reverse]
  | c :: rest, acc =>
    if c.isWhitespace then
      if acc = [] then wsWords rest [] else acc.reverse :: wsWords rest []
    else wsWords rest (c :: acc)

/-- Modelled from the spec: Strings.clean is not under src/; the spec says
plain text is cleaned of redundant whitespace, so this trims the text and
collapses internal whitespace runs to single spaces. -/
def Strings.clean (s : String) : String :=
  String.mk (List.intercalate [' '] (wsWords s.data []))

/-- Whether the text contains a word character, mirroring the regex match
on a letter or digit (case insensitive) in resolveText. -/
def containsWordChar (s : String) : Bool :=
  s.data.any fun c => c.isAlphanum

/-- Resolver.getInflection: end inflection when the next flattened node's
trimmed text starts with a full stop, otherwise mid; a missing next node
(undefined) is falsy, giving mid. -/
def Resolver.getInflection (flattened : List SpeakNode) (idx : Nat) : String :=
  match flattened.get? (idx + 1) with
  | some next => if jsStartsWith "." (jsTrim next.textContent) then "end" else "mid"
  | none => "mid"

/-- Resolver.resolveText: silence for a bare full stop, a leading silence
for a leading full stop, skip wordless text, otherwise a segment keyed by
parent type, ref, the phraseset choice index when applicable, and the
node index, plus a trailing silence for a trailing full stop. -/
def Resolver.resolveText (textContent : String) (parentType parentRef : String)
    (psetIdx : Option String) (nodeIdx : Nat) : List VoxKey :=
  let text := Strings.clean textContent
  if text = "." then [VoxKey.silence 650]
  else
    let set : List VoxKey := if jsStartsWith "." text then [VoxKey.silence 650] else []
    if containsWordChar text = false then set
    else
      let id := parentType ++ "." ++ parentRef
      let id := if parentType = "phraseset" then id ++ "." ++ jsStrOpt psetIdx else id
      let id := id ++ "." ++ toString nodeIdx
      let set := set ++ [VoxKey.seg id]
      if jsEndsWith "." text then set ++ [VoxKey.silence 650] else set

/-- Resolver.resolveCoach: lead-in silence, a letter segment at the
looked-ahead inflection, and a trailing silence when mid-sentence. -/
def Resolver.resolveCoach (flattened : List SpeakNode) (coachLetter : String)
    (idx : Nat) : List VoxKey :=
  let inflect := Resolver.getInflection flattened idx
  let result := [VoxKey.silence 200, VoxKey.seg ("letter." ++ coachLetter ++ "." ++ inflect)]
  if inflect = "mid" then result ++ [VoxKey.silence 200] else result

/-- Resolver.resolveExcuse: lead-in silence, an excuse segment at the
looked-ahead inflection, and a trailing silence when mid-sentence. -/
def Resolver.resolveExcuse (flattened : List SpeakNode) (excuseKey : String)
    (idx : Nat) : List VoxKey :=
  let inflect := Resolver.getInflection flattened idx
  let result := [VoxKey.silence 150, VoxKey.seg ("excuse." ++ excuseKey ++ "." ++ inflect)]
  if inflect = "mid" then result ++ [VoxKey.silence 200] else result

/-- Resolver.resolveInteger: lead-in silence, the number segment, then a
grammatical suffix segment chosen by the singular/plural data when they
are truthy and agree with the value, else just the short silence. -/
def Resolver.resolveInteger (value : Int) (singular plural : Option String) : List VoxKey :=
  let parts := [VoxKey.silence 125, VoxKey.seg ("number." ++ toString value ++ ".mid")]
  if jsTruthyStr singular = true ∧ value = 1 then
    parts ++ [VoxKey.silence 150, VoxKey.seg ("number.suffix." ++ jsStrOpt singular ++ ".end")]
  else if jsTruthyStr plural = true ∧ value ≠ 1 then
    parts ++ [VoxKey.silence 150, VoxKey.seg ("number.suffix." ++ jsStrOpt plural ++ ".end")]
  else
    parts ++ [VoxKey.silence 150]

/-- Resolver.resolveNamed: fixed silences around the named segment. -/
def Resolver.resolveNamed (namedKey : String) : List VoxKey :=
  [VoxKey.silence 200, VoxKey.seg ("named." ++ namedKey ++ ".mid"), VoxKey.silence 200]

/-- Resolver.resolvePlatform: lead-in silence, the platform number segment
with the default letter M substituted for an unknown letter, and a
trailing silence when mid-sentence. -/
def Resolver.resolvePlatform (flattened : List SpeakNode) (digit letter : String)
    (idx : Nat) : List VoxKey :=
  let inflect := Resolver.getInflection flattened idx
  let letterOrDefault := if letter = "??" then "M" else letter
  let result := [VoxKey.silence 150,
    VoxKey.seg ("number." ++ digit ++ letterOrDefault ++ "." ++ inflect)]
  if inflect = "mid" then result ++ [VoxKey.silence 200] else result

/-- The typeof check of resolveService: whether the last key of the
resolved list so far is a number (a silence); an empty list gives
undefined, which is not a number. -/
def lastKeyIsNumber (resolved : List VoxKey) : Bool :=
  match resolved.getLast? with
  | some (VoxKey.silence _) => true
  | _ => false

/-- Resolver.resolveService: the beginning delay is added only when the
last already resolved key is not a number, then the service segment and a
trailing silence. -/
def Resolver.resolveService (serviceKey : String) (resolved : List VoxKey) : List VoxKey :=
  let result : List VoxKey :=
    if lastKeyIsNumber resolved = true then [] else [VoxKey.silence 150]
  result ++ [VoxKey.seg ("service." ++ serviceKey ++ ".mid"), VoxKey.silence 150]

/-- Resolver.resolveStation: lead silence, the station segment at the
looked-ahead inflection, and a trailing silence when mid-sentence. -/
def Resolver.resolveStation (getVox : String → String) (flattened : List SpeakNode)
    (code : String) (idx : Nat) : List VoxKey :=
  let voxKey := getVox code
  let inflect := Resolver.getInflection flattened idx
  let result := [VoxKey.silence 200, VoxKey.seg ("station." ++ voxKey ++ "." ++ inflect)]
  if inflect = "mid" then result ++ [VoxKey.silence 200] else result

/-- The forEach body of Resolver.resolveStationList, as a recursion over
the remaining codes carrying the running index k against the total
length: every member except the last emits a mid station segment and a
quarter-second silence; the last member emits the and connector when the
list has more than one member, then either the only-suffixed single
calling station or the station at the looked-ahead inflection. -/
def Resolver.stationListBody (getVox : String → String) (ctx inflect : String)
    (len : Nat) : Nat → List String → List VoxKey
  | _, [] => []
  | k, code :: rest =>
    let voxKey := getVox code
    if k ≠ len - 1 then
      [VoxKey.seg ("station." ++ voxKey ++ ".mid"), VoxKey.silence 250]
        ++ Resolver.stationListBody getVox ctx inflect len (k + 1) rest
    else
      (if len > 1 then [VoxKey.seg "station.parts.and.mid", VoxKey.silence 250] else [])
        ++ (if len = 1 ∧ ctx = "calling" then
              [VoxKey.seg ("station." ++ voxKey ++ ".mid"),
               VoxKey.silence 200, VoxKey.seg "station.parts.only.end"]
            else
              [VoxKey.seg ("station." ++ voxKey ++ "." ++ inflect)])
        ++ Resolver.stationListBody getVox ctx inflect len (k + 1) rest

/-- Resolver.resolveStationList with the inflection passed explicitly:
a lead silence, the forEach body over the codes, and a trailing
silence. -/
def Resolver.resolveStationListWith (getVox : String → String) (codes : List String)
    (ctx inflect : String) : List VoxKey :=
  [VoxKey.silence 200]
    ++ Resolver.stationListBody getVox ctx inflect codes.length 0 codes
    ++ [VoxKey.silence 200]

/-- Resolver.resolveStationList: computes the looked-ahead inflection and
delegates to the explicit-inflection form. -/
def Resolver.resolveStationList (getVox : String → String) (flattened : List SpeakNode)
    (codes : List String) (ctx : String) (idx : Nat) : List VoxKey :=
  Resolver.resolveStationListWith getVox codes ctx (Resolver.getInflection flattened idx)

/-- Resolver.resolveTime: lead silence; exact midnight is special-cased to
a single 0000 segment; otherwise the hour segment at sentence-begin
inflection, then a hundred segment for on-the-hour times or the minute
segment, and a final trailing silence.  Indexing a missing split part
mirrors JavaScript undefined. -/
def Resolver.resolveTime (value : String) : List VoxKey :=
  let time := jsSplitChar ':' value
  let parts : List VoxKey := [VoxKey.silence 200]
  if time.get? 0 = some "00" ∧ time.get? 1 = some "00" then
    parts ++ [VoxKey.seg "number.0000.mid", VoxKey.silence 200]
  else
    let parts := parts ++ [VoxKey.seg ("number." ++ jsStrOpt (time.get? 0) ++ ".begin")]
    let parts :=
      if time.get? 1 = some "00" then
        parts ++ [VoxKey.silence 75, VoxKey.seg "number.hundred.mid"]
      else
        parts ++ [VoxKey.silence 200, VoxKey.seg ("number." ++ jsStrOpt (time.get? 1) ++ ".mid")]
    parts ++ [VoxKey.silence 150]

/-- Resolver.resolveVox: the literal provided key, with a leading or
trailing silence only when the trimmed source text has a leading or
trailing full stop. -/
def Resolver.resolveVox (textContent : String) (key : String) : List VoxKey :=
  let text := jsTrim textContent
  let result : List VoxKey := if jsStartsWith "." text then [VoxKey.silence 650] else []
  let result := result ++ [VoxKey.seg key]
  if jsEndsWith "." text then result ++ [VoxKey.silence 650] else result

/-- Resolver.resolve: dispatch on the node type; unknown types resolve to
an empty key list. -/
def Resolver.resolve (getVox : String → String) (flattened : List SpeakNode)
    (node : SpeakNode) (idx : Nat) (resolved : List VoxKey) : List VoxKey :=
  match node.data with
  | .textNode pt pr pi ni => Resolver.resolveText node.textContent pt pr pi ni
  | .coach letter => Resolver.resolveCoach flattened letter idx
  | .excuse key => Resolver.resolveExcuse flattened key idx
  | .integer v s p => Resolver.resolveInteger v s p
  | .named n => Resolver.resolveNamed n
  | .platform d l => Resolver.resolvePlatform flattened d l idx
  | .service svc => Resolver.resolveService svc resolved
  | .station code => Resolver.resolveStation getVox flattened code idx
  | .stationList codes ctx => Resolver.resolveStationList getVox flattened codes ctx idx
  | .time v => Resolver.resolveTime v
  | .vox key => Resolver.resolveVox node.textContent key
  | .unknownType => []

/-- The forEach of Resolver.toVox over the flattened nodes, carrying the
running index and the accumulated resolved keys (the accumulator is what
this.resolved holds when each node is resolved). -/
def Resolver.toVoxGo (getVox : String → String) (flattened : List SpeakNode) :
    List SpeakNode → Nat → List VoxKey → List VoxKey
  | [], _, acc => acc
  | node :: rest, i, acc =>
    Resolver.toVoxGo getVox flattened rest (i + 1)
      (acc ++ Resolver.resolve getVox flattened node i acc)

/-- Resolver.toVox restricted to the per-node resolution pass: resolves
each flattened node in order, accumulating the resolved keys. -/
def Resolver.toVox (getVox : String → String) (flattened : List SpeakNode) : List VoxKey :=
  Resolver.toVoxGo getVox flattened flattened 0 []

/-! ## VoxEngine

Shallow embedding of the VoxEngine class of src/js/speech/voxEngine.ts.
The mutable fields become an explicit state record; the three suspension
points of the single-threaded event loop (the pump timer firing, a
pending request's fetch/decode completing, the playing buffer node's
onended event) become events of a step function.  Two ghost logs record,
in order, the keys for which a fetch request was issued and the keys
whose buffers were started playing; a list of effects records the
externally visible operations of each call. -/

/-- Playback settings as stored by the engine.  The engine stores and
clears currentSettings but never reads it; the fields mirror the Config
vox settings. -/
structure SpeechSettings where
  volume : Nat
deriving DecidableEq, Repr

/-- Modelled from the spec: the VoxRequest class (VoxAsset) is not under
src/; per the spec it is constructed pending, completes asynchronously
into done-with-buffer or done-without-buffer (failure), and cancellation
before completion prevents any later buffer delivery.  The engine-visible
surface used by src/js/speech/voxEngine.ts is the path (kept here as the
voice base plus the vox key, since only which key was fetched matters),
the isDone flag and the optional decoded buffer.  Completion is an
environment event on the engine's pending queue; a request removed from
the queue by stop (which cancels it) can no longer deliver. -/
structure VoxRequest where
  voiceURI : String
  key : VoxKey
  isDone : Bool
  buffer : Option Nat
deriving DecidableEq, Repr

/-- A freshly constructed VoxRequest: pending, no buffer yet. -/
def mkReq (voiceURI : String) (key : VoxKey) : VoxRequest :=
  { voiceURI := voiceURI, key := key, isDone := false, buffer := none }

/-- The currently playing AudioBufferSourceNode: its decoded buffer and,
as ghost data, the key it came from.  Its onended callback is attached at
creation and lives exactly as long as the engine's reference (stop
detaches the callback and clears the reference together). -/
structure BufNode where
  buffer : Nat
  key : VoxKey
deriving DecidableEq, Repr

/-- Externally visible operations of the engine, recorded per call. -/
inductive Effect
  | clearPumpTimer
  | cancelReq (key : VoxKey)
  | nodeStop
  | nodeDisconnect
  | detachOnEnded
  | fetch (key : VoxKey)
  | play (key : VoxKey)
  | armPumpTimer
deriving DecidableEq, Repr

/-- The VoxEngine state: the mutable fields of the class, plus the ghost
fetch and play logs. -/
structure EngineState where
  isSpeaking : Bool
  pumpTimerArmed : Bool
  pendingReqs : List VoxRequest
  currentIds : Option (List VoxKey)
  currentVoice : Option String
  currentSettings : Option SpeechSettings
  currentBufNode : Option BufNode
  fetchedLog : List VoxKey
  playedLog : List VoxKey
deriving DecidableEq, Repr

/-- A freshly constructed engine: not speaking, no timer, nothing pending
or playing. -/
def initState : EngineState :=
  { isSpeaking := false, pumpTimerArmed := false, pendingReqs := []
  , currentIds := none, currentVoice := none, currentSettings := none
  , currentBufNode := none, fetchedLog := [], playedLog := [] }

/-- VoxEngine.stop: clears the pump timer, marks not speaking, cancels
every pending request, stops and disconnects any currently playing buffer
node detaching its onended callback, and clears all current state. -/
def stopFn (s : EngineState) : EngineState × List Effect :=
  let effs := [Effect.clearPumpTimer]
    ++ s.pendingReqs.map (fun r => Effect.cancelReq r.key)
    ++ (match s.currentBufNode with
        | some _ => [Effect.nodeStop, Effect.nodeDisconnect, Effect.detachOnEnded]
        | none => [])
  ({ s with isSpeaking := false, pumpTimerArmed := false, pendingReqs := []
          , currentIds := none, currentVoice := none, currentSettings := none
          , currentBufNode := none }, effs)

/-- The recursion of VoxEngine.playNext on the pending queue and the
current buffer node: return unless the head request exists, is done, and
nothing is playing; a done head without a buffer is shifted and skipped
by immediate recursion; a done head with a buffer is shifted and started
as the new current buffer node.  The third component lists the keys
started playing. -/
def playNextAux : List VoxRequest → Option BufNode →
    List VoxRequest × Option BufNode × List VoxKey
  | [], cur => ([], cur, [])
  | req :: rest, cur =>
    match cur with
    | some c => (req :: rest, some c, [])
    | none =>
      if req.isDone = true then
        match req.buffer with
        | none => playNextAux rest none
        | some b => (rest, some { buffer := b, key := req.key }, [req.key])
      else (req :: rest, none, [])

/-- VoxEngine.playNext on the engine state. -/
def playNextFn (s : EngineState) : EngineState × List Effect :=
  let r := playNextAux s.pendingReqs s.currentBufNode
  ({ s with pendingReqs := r.1, currentBufNode := r.2.1
          , playedLog := s.playedLog ++ r.2.2 },
   r.2.2.map Effect.play)

/-- The refill while-loop of VoxEngine.pump: while the head unconsumed id
is truthy and fewer than 10 requests are pending, shift the id and push a
new pending request for it.  Returns the remaining ids, the new pending
queue, and the keys fetched, in order. -/
def refill (voice : String) : List VoxKey → List VoxRequest →
    List VoxKey × List VoxRequest × List VoxKey
  | [], pend => ([], pend, [])
  | k :: rest, pend =>
    if k.truthy = true ∧ pend.length < 10 then
      let r := refill voice rest (pend ++ [mkReq voice k])
      (r.1, r.2.1, k :: r.2.2)
    else (k :: rest, pend, [])

/-- The body of VoxEngine.pump past its early-return guard (split out of
pumpFn for the state-passing embedding): advance playback with playNext;
refill the pending window from the unconsumed ids; then stop when out of
ids with nothing playing, else re-arm the pump timer. -/
def pumpCore (ids : List VoxKey) (voice : String) (s : EngineState) :
    EngineState × List Effect :=
  let p := playNextFn s
  let rf := refill voice ids p.1.pendingReqs
  let s1 := { p.1 with currentIds := some rf.1, pendingReqs := rf.2.1
                     , fetchedLog := p.1.fetchedLog ++ rf.2.2 }
  let effs := p.2 ++ rf.2.2.map Effect.fetch
  if rf.1.length ≤ 0 ∧ s1.currentBufNode = none then
    let st := stopFn s1
    (st.1, effs ++ st.2)
  else
    ({ s1 with pumpTimerArmed := true }, effs ++ [Effect.armPumpTimer])

/-- VoxEngine.pump: return unless speaking with ids and a voice, then run
the pump body. -/
def pumpFn (s : EngineState) : EngineState × List Effect :=
  match s.isSpeaking, s.currentIds, s.currentVoice with
  | true, some ids, some voice => pumpCore ids voice s
  | _, _, _ => (s, [])

/-- VoxEngine.speak: stop first when already speaking, store the ids,
voice and settings, and run the pump.  The ghost logs are reset so that
they describe the new utterance. -/
def speakFn (ids : List VoxKey) (voice : String) (settings : SpeechSettings)
    (s : EngineState) : EngineState × List Effect :=
  let st := if s.isSpeaking = true then stopFn s else (s, [])
  let s1 := { st.1 with isSpeaking := true, currentIds := some ids
                      , currentVoice := some voice, currentSettings := some settings
                      , fetchedLog := [], playedLog := [] }
  let p := pumpFn s1
  (p.1, st.2 ++ p.2)

/-- The suspension points of the single-threaded event loop: the pump
timer firing, the fetch/decode of the i-th pending request completing
with an optional buffer (requests complete independently and in any
order), the playing buffer node's onended event, and the public stop and
speak calls. -/
inductive Event
  | pumpTick
  | reqComplete (i : Nat) (buffer : Option Nat)
  | bufEnded
  | stopCall
  | speakCall (ids : List VoxKey) (voice : String) (settings : SpeechSettings)
deriving DecidableEq, Repr

/-- Whether an event is a speak call. -/
def Event.isSpeak : Event → Bool
  | .speakCall _ _ _ => true
  | _ => false

/-- One step of the event loop.  A pump tick only fires while the timer is
armed and consumes it.  A completion event delivers to the i-th request
still in the pending queue, if it is not already done; requests cancelled
by stop are no longer in the queue, so their completion cannot mutate the
engine.  The onended event only fires while the engine still references
the node (stop detaches the callback and drops the reference together);
as in the source callback, it returns when no longer speaking, else
clears the current node and advances with playNext. -/
def step (s : EngineState) : Event → EngineState × List Effect
  | .pumpTick =>
    if s.pumpTimerArmed = true then pumpFn { s with pumpTimerArmed := false }
    else (s, [])
  | .reqComplete i buffer =>
    match s.pendingReqs.get? i with
    | some r =>
      if r.isDone = true then (s, [])
      else ({ s with pendingReqs :=
                s.pendingReqs.set i { r with isDone := true, buffer := buffer } }, [])
    | none => (s, [])
  | .bufEnded =>
    match s.currentBufNode with
    | some _ =>
      if s.isSpeaking = false then (s, [])
      else playNextFn { s with currentBufNode := none }
    | none => (s, [])
  | .stopCall => stopFn s
  | .speakCall ids voice settings => speakFn ids voice settings s

/-- Running the event loop from a state through a list of events. -/
def run (s : EngineState) : List Event → EngineState
  | [] => s
  | e :: es => run (step s e).1 es

/-- The run invariant of one utterance: relative to the spoken id list
ids0, the unconsumed ids are exactly what remains of ids0 after the
fetched prefix; the fetched log is always an initial segment of ids0; and
the fetched log splits into the keys already consumed from the queue
followed by the keys still pending, with the played log a sublist of the
consumed keys. -/
def SpeakInv (ids0 : List VoxKey) (s : EngineState) : Prop :=
  (∀ rest, s.currentIds = some rest → ids0 = s.fetchedLog ++ rest) ∧
  (∃ tail, ids0 = s.fetchedLog ++ tail) ∧
  (∃ consumed, s.fetchedLog = consumed ++ s.pendingReqs.map (fun r => r.key) ∧
    List.Sublist s.playedLog consumed)

/-- The non-silence keys of a sequence, in order. -/
def nonSilenceKeys (ids : List VoxKey) : List VoxKey :=
  ids.filter (fun k => k.isSilence = false)

/-- Reachable-state hygiene: when the engine is not speaking, its timer is
disarmed, nothing is pending or playing, and no current ids, voice or
settings are held (every path out of the speaking state goes through
stop, which clears everything). -/
def NotSpeakingClean (s : EngineState) : Prop :=
  s.isSpeaking = false →
    s.pumpTimerArmed = false ∧ s.pendingReqs = [] ∧ s.currentBufNode = none ∧
    s.currentIds = none ∧ s.currentVoice = none ∧ s.currentSettings = none

/-- A concrete speaking state with one pending request and a playing
buffer node, used to exhibit the stop behaviour. -/
def sampleStopState : EngineState :=
  { isSpeaking := true, pumpTimerArmed := true
  , pendingReqs := [mkReq "v" (VoxKey.seg "a")], currentIds := some [VoxKey.seg "b"]
  , currentVoice := some "v", currentSettings := some { volume := 1 }
  , currentBufNode := some { buffer := 3, key := VoxKey.seg "c" }
  , fetchedLog := [], playedLog := [] }

/-! ## Lemmas about the resolver -/

/-- Unfolding the station list forEach along a list split as an initial
segment and a last member, when the running index reaches the last index
exactly at the last member: every initial member emits its mid station
segment and a quarter-second silence, and the last member emits the
connector and final station per the source's three-way case split. -/
theorem stationListBody_append_last (getVox : String → String) (ctx inflect : String)
    (len : Nat) (last : String) :
    ∀ (init : List String) (k : Nat), k + init.length = len - 1 →
    Resolver.stationListBody getVox ctx inflect len k (init ++ [last]) =
      (init.flatMap fun c =>
        [VoxKey.seg ("station." ++ getVox c ++ ".mid"), VoxKey.silence 250])
      ++ (if len > 1 then [VoxKey.seg "station.parts.and.mid", VoxKey.silence 250] else [])
      ++ (if len = 1 ∧ ctx = "calling" then
            [VoxKey.seg ("station." ++ getVox last ++ ".mid"), VoxKey.silence 200,
             VoxKey.seg "station.parts.only.end"]
          else [VoxKey.seg ("station." ++ getVox last ++ "." ++ inflect)]) := by
  intro init
  induction init with
  | nil =>
    intro k hk
    have hk' : k = len - 1 := by simpa using hk
    subst hk'
    simp [Resolver.stationListBody]
  | cons c tl ih =>
    intro k hk
    have hlen : k + (tl.length + 1) = len - 1 := by simpa using hk
    have hne : k ≠ len - 1 := by omega
    have hrec := ih (k + 1) (by omega)
    simp [Resolver.stationListBody, hne, hrec, List.append_assoc]

/-- C7: For every station-list node, resolveStationList returns a lead
silence of 0.2s; for each member except the last, station.{voxCode}.mid
followed by 0.25s; when the list has more than one member, an "and"
connector segment plus 0.25s before the final station at the sentence
inflection computed for the node; when the list has exactly one member in
a "calling" context, the single station followed by an "only" segment
instead of an "and" connector (for three entries: exactly two mid station
segments, one "and" connector, one inflected final segment); and a
closing trailing silence of 0.2s. -/
theorem resolveStationList_spec :
    (∀ (getVox : String → String) (init : List String) (last ctx inflect : String),
      Resolver.resolveStationListWith getVox (init ++ [last]) ctx inflect =
        [VoxKey.silence 200]
        ++ (init.flatMap fun c =>
              [VoxKey.seg ("station." ++ getVox c ++ ".mid"), VoxKey.silence 250])
        ++ (if init.length + 1 > 1 then
              [VoxKey.seg "station.parts.and.mid", VoxKey.silence 250] else [])
        ++ (if init.length + 1 = 1 ∧ ctx = "calling" then
              [VoxKey.seg ("station." ++ getVox last ++ ".mid"), VoxKey.silence 200,
               VoxKey.seg "station.parts.only.end"]
            else [VoxKey.seg ("station." ++ getVox last ++ "." ++ inflect)])
        ++ [VoxKey.silence 200]) ∧
    (∀ (getVox : String → String) (flattened : List SpeakNode) (codes : List String)
        (ctx : String) (idx : Nat),
      Resolver.resolveStationList getVox flattened codes ctx idx =
        Resolver.resolveStationListWith getVox codes ctx
          (Resolver.getInflection flattened idx)) ∧
    (∀ (getVox : String → String) (a inflect : String),
      Resolver.resolveStationListWith getVox [a] "calling" inflect =
        [VoxKey.silence 200, VoxKey.seg ("station." ++ getVox a ++ ".mid"),
         VoxKey.silence 200, VoxKey.seg "station.parts.only.end", VoxKey.silence 200]) ∧
    (∀ (getVox : String → String) (a b c ctx inflect : String),
      Resolver.resolveStationListWith getVox [a, b, c] ctx inflect =
        [VoxKey.silence 200,
         VoxKey.seg ("station." ++ getVox a ++ ".mid"), VoxKey.silence 250,
         VoxKey.seg ("station." ++ getVox b ++ ".mid"), VoxKey.silence 250,
         VoxKey.seg "station.parts.and.mid", VoxKey.silence 250,
         VoxKey.seg ("station." ++ getVox c ++ "." ++ inflect), VoxKey.silence 200]) := by
  refine ⟨?_, fun _ _ _ _ _ => rfl, fun _ _ _ => rfl, fun _ _ _ _ _ _ => rfl⟩
  intro getVox init last ctx inflect
  have hlen : (init ++ [last]).length = init.length + 1 := by simp
  have hbody := stationListBody_append_last getVox ctx inflect (init.length + 1) last
    init 0 (by omega)
  simp only [Resolver.resolveStationListWith, hlen, hbody, List.append_assoc]

/-- C8: resolving a time node with value 14:00 yields exactly the key
sequence 0.2s, number.14.begin, 0.075s, number.hundred.mid, 0.15s, and
resolving 00:00 yields exactly 0.2s, number.0000.mid, 0.2s: midnight is
special-cased to a single 0000 segment and on-the-hour times use a
hundred segment.  The last conjunct ties the values to the resolve
dispatch on a time node. -/
theorem resolveTime_examples :
    Resolver.resolveTime "14:00" =
      [VoxKey.silence 200, VoxKey.seg "number.14.begin", VoxKey.silence 75,
       VoxKey.seg "number.hundred.mid", VoxKey.silence 150] ∧
    Resolver.resolveTime "00:00" =
      [VoxKey.silence 200, VoxKey.seg "number.0000.mid", VoxKey.silence 200] ∧
    (∀ (getVox : String → String) (flattened : List SpeakNode) (txt : String)
        (idx : Nat) (acc : List VoxKey),
      Resolver.resolve getVox flattened ⟨txt, NodeData.time "14:00"⟩ idx acc =
        Resolver.resolveTime "14:00" ∧
      Resolver.resolve getVox flattened ⟨txt, NodeData.time "00:00"⟩ idx acc =
        Resolver.resolveTime "00:00") :=
  ⟨by decide, by decide, fun _ _ _ _ _ => ⟨rfl, rfl⟩⟩

/-- C9: when resolving a service node the lead-in silence is suppressed
exactly when the immediately preceding resolved key is a number (a
silence); otherwise, including when the service node is the first
resolved node, a lead-in silence is emitted; in all cases the output ends
with the service segment and a 0.15s trailing silence; and the check
inspects only whether the immediately previous resolved key is a number,
nothing deeper.  The last conjunct exercises the rule through the toVox
pipeline, whose accumulator is what resolveService inspects. -/
theorem resolveService_lead_in :
    (∀ (svc : String) (prev : List VoxKey) (q : Nat),
      prev.getLast? = some (VoxKey.silence q) →
      Resolver.resolveService svc prev =
        [VoxKey.seg ("service." ++ svc ++ ".mid"), VoxKey.silence 150]) ∧
    (∀ (svc : String) (prev : List VoxKey),
      (∀ q, prev.getLast? ≠ some (VoxKey.silence q)) →
      Resolver.resolveService svc prev =
        [VoxKey.silence 150, VoxKey.seg ("service." ++ svc ++ ".mid"),
         VoxKey.silence 150]) ∧
    (∀ svc : String,
      Resolver.resolveService svc [] =
        [VoxKey.silence 150, VoxKey.seg ("service." ++ svc ++ ".mid"),
         VoxKey.silence 150]) ∧
    (∀ (svc : String) (p1 p2 : List VoxKey),
      lastKeyIsNumber p1 = lastKeyIsNumber p2 →
      Resolver.resolveService svc p1 = Resolver.resolveService svc p2) ∧
    (∀ getVox : String → String,
      Resolver.toVox getVox
          [⟨".", NodeData.textNode "phrase" "r" none 0⟩, ⟨"x", NodeData.service "x"⟩] =
        [VoxKey.silence 650, VoxKey.seg "service.x.mid", VoxKey.silence 150] ∧
      Resolver.toVox getVox [⟨"x", NodeData.service "x"⟩] =
        [VoxKey.silence 150, VoxKey.seg "service.x.mid", VoxKey.silence 150]) := by
  refine ⟨?_, ?_, fun _ => rfl, ?_, fun _ => ⟨rfl, rfl⟩⟩
  · intro svc prev q h
    simp [Resolver.resolveService, lastKeyIsNumber, h]
  · intro svc prev h
    have hnum : lastKeyIsNumber prev = false := by
      unfold lastKeyIsNumber
      rcases hl : prev.getLast? with _ | k
      · rfl
      · cases k with
        | seg s => rfl
        | silence q => exact absurd hl (h q)
    simp [Resolver.resolveService, hnum]
  · intro svc p1 p2 h
    simp [Resolver.resolveService, h]

/-- Witness for C9: a previous silence key suppresses the lead-in and a
previous segment key keeps it, at concrete inputs. -/
theorem resolveService_lead_in_witness :
    ([VoxKey.silence 200].getLast? = some (VoxKey.silence 200)) ∧
    Resolver.resolveService "x" [VoxKey.silence 200] =
      [VoxKey.seg "service.x.mid", VoxKey.silence 150] ∧
    (∀ q, [VoxKey.seg "s"].getLast? ≠ some (VoxKey.silence q)) ∧
    Resolver.resolveService "x" [VoxKey.seg "s"] =
      [VoxKey.silence 150, VoxKey.seg "service.x.mid", VoxKey.silence 150] := by
  have hne : ∀ q, [VoxKey.seg "s"].getLast? ≠ some (VoxKey.silence q) := by
    intro q
    simp
  exact ⟨by decide, resolveService_lead_in.1 "x" [VoxKey.silence 200] 200 (by decide),
    hne, resolveService_lead_in.2.1 "x" [VoxKey.seg "s"] hne⟩

/-- C10: for the last node of a flattened speakable-node list (one with
no successor), getInflection returns mid; and end inflection can only
arise from a following flattened node whose trimmed text starts with a
full stop. -/
theorem getInflection_last_mid :
    (∀ (flattened : List SpeakNode) (idx : Nat),
      flattened.get? (idx + 1) = none → Resolver.getInflection flattened idx = "mid") ∧
    (∀ flattened : List SpeakNode, flattened ≠ [] →
      Resolver.getInflection flattened (flattened.length - 1) = "mid") ∧
    (∀ (flattened : List SpeakNode) (idx : Nat),
      Resolver.getInflection flattened idx = "end" →
      ∃ next, flattened.get? (idx + 1) = some next ∧
        jsStartsWith "." (jsTrim next.textContent) = true) := by
  refine ⟨?_, ?_, ?_⟩
  · intro f idx h
    unfold Resolver.getInflection
    rw [h]
  · intro f hne
    have hpos : 0 < f.length := List.length_pos.mpr hne
    have hnone : f.get? (f.length - 1 + 1) = none := by
      have heq : f.length - 1 + 1 = f.length := by omega
      rw [heq]
      exact List.get?_len_le (le_refl _)
    unfold Resolver.getInflection
    rw [hnone]
  · intro f idx h
    unfold Resolver.getInflection at h
    revert h
    rcases hg : f.get? (idx + 1) with _ | next
    · intro h
      simp at h
    · intro h
      by_cases hc : jsStartsWith "." (jsTrim next.textContent) = true
      · exact ⟨next, rfl, hc⟩
      · simp [hc] at h

/-- Witness for C10: a one-node list has no successor for index 0 and
gets mid; a node followed by full-stop text gets end, exhibiting the
successor. -/
theorem getInflection_last_mid_witness :
    (([⟨"a", NodeData.unknownType⟩] : List SpeakNode).get? 1 = none) ∧
    Resolver.getInflection [⟨"a", NodeData.unknownType⟩] 0 = "mid" ∧
    (([⟨"a", NodeData.unknownType⟩] : List SpeakNode) ≠ []) ∧
    Resolver.getInflection [⟨"a", NodeData.unknownType⟩]
      (([⟨"a", NodeData.unknownType⟩] : List SpeakNode).length - 1) = "mid" := by
  refine ⟨by decide, getInflection_last_mid.1 _ 0 (by decide), by decide,
    getInflection_last_mid.2.1 _ (by decide)⟩

/-- C6: when playNext dequeues a completed request without a buffer, it
recurses immediately to the next pending item, so a failed asset is
skipped without being played and the remaining queue is processed exactly
as if the failed request were absent. -/
theorem playNext_skips_failed :
    (∀ (req : VoxRequest) (rest : List VoxRequest),
      req.isDone = true → req.buffer = none →
      playNextAux (req :: rest) none = playNextAux rest none) ∧
    (∀ (s : EngineState) (req : VoxRequest) (rest : List VoxRequest),
      s.currentBufNode = none → s.pendingReqs = req :: rest →
      req.isDone = true → req.buffer = none →
      playNextFn s = playNextFn { s with pendingReqs := rest }) := by
  constructor
  · intro req rest h1 h2
    simp [playNextAux, h1, h2]
  · intro s req rest hb hp h1 h2
    have hskip : playNextAux (req :: rest) none = playNextAux rest none := by
      simp [playNextAux, h1, h2]
    cases s
    simp only at hb hp
    subst hb hp
    simp [playNextFn, hskip]

/-- Witness for C6: a concrete failed head request is skipped and the
successful request behind it is what gets played. -/
theorem playNext_skips_failed_witness :
    (({ voiceURI := "v", key := VoxKey.seg "a", isDone := true, buffer := none }
        : VoxRequest).isDone = true) ∧
    (({ voiceURI := "v", key := VoxKey.seg "a", isDone := true, buffer := none }
        : VoxRequest).buffer = none) ∧
    playNextAux
      [{ voiceURI := "v", key := VoxKey.seg "a", isDone := true, buffer := none },
       { voiceURI := "v", key := VoxKey.seg "b", isDone := true, buffer := some 7 }] none =
    playNextAux
      [{ voiceURI := "v", key := VoxKey.seg "b", isDone := true, buffer := some 7 }] none :=
  ⟨by decide, by decide,
    playNext_skips_failed.1 _ _ (by decide) (by decide)⟩

/-! ## Lemmas about the engine -/

/-- playNext only ever dequeues from the head: the pending queue splits
into a shifted prefix and the remaining queue, the keys started playing
form a sublist of the shifted keys, and the queue never grows. -/
theorem playNextAux_shape : ∀ (pend : List VoxRequest) (cur : Option BufNode),
    ∃ shifted, pend = shifted ++ (playNextAux pend cur).1 ∧
      List.Sublist ((playNextAux pend cur).2.2) (shifted.map (fun r => r.key)) ∧
      (playNextAux pend cur).1.length ≤ pend.length := by
  intro pend
  induction pend with
  | nil =>
    intro cur
    exact ⟨[], by simp [playNextAux]⟩
  | cons req rest ih =>
    intro cur
    cases cur with
    | some c => exact ⟨[], by simp [playNextAux]⟩
    | none =>
      by_cases hd : req.isDone = true
      · rcases hb : req.buffer with _ | b
        · have hred : playNextAux (req :: rest) none = playNextAux rest none := by
            simp [playNextAux, hd, hb]
          obtain ⟨sh, h1, h2, h3⟩ := ih none
          refine ⟨req :: sh, ?_, ?_, ?_⟩
          · rw [hred, List.cons_append]
            exact congrArg (List.cons req) h1
          · rw [hred, List.map_cons]
            exact h2.cons _
          · rw [hred]
            simp only [List.length_cons]
            omega
        · have hred : playNextAux (req :: rest) none
              = (rest, some { buffer := b, key := req.key }, [req.key]) := by
            simp [playNextAux, hd, hb]
          refine ⟨[req], ?_, ?_, ?_⟩
          · rw [hred]
            rfl
          · rw [hred, List.map_cons]
            simp
          · rw [hred]
            simp
      · have hred : playNextAux (req :: rest) none = (req :: rest, none, []) := by
          simp [playNextAux, hd]
        refine ⟨[], ?_, ?_, ?_⟩
        · rw [hred]
          rfl
        · rw [hred]
          simp
        · rw [hred]

/-- The refill loop consumes a prefix of the unconsumed ids, pushes one
new pending request per consumed id at the tail of the queue in the same
order, and never grows the queue past ten. -/
theorem refill_shape (voice : String) : ∀ (ids : List VoxKey) (pend : List VoxRequest),
    ids = (refill voice ids pend).2.2 ++ (refill voice ids pend).1 ∧
    (refill voice ids pend).2.1 = pend ++ ((refill voice ids pend).2.2).map (mkReq voice) ∧
    (pend.length ≤ 10 → ((refill voice ids pend).2.1).length ≤ 10) := by
  intro ids
  induction ids with
  | nil =>
    intro pend
    exact ⟨rfl, by simp [refill], fun h => by simpa [refill] using h⟩
  | cons k rest ih =>
    intro pend
    by_cases hc : k.truthy = true ∧ pend.length < 10
    · obtain ⟨h1, h2, h3⟩ := ih (pend ++ [mkReq voice k])
      have hred : refill voice (k :: rest) pend
          = ((refill voice rest (pend ++ [mkReq voice k])).1,
             (refill voice rest (pend ++ [mkReq voice k])).2.1,
             k :: (refill voice rest (pend ++ [mkReq voice k])).2.2) := by
        simp [refill, hc]
      rw [hred]
      refine ⟨?_, ?_, ?_⟩
      · rw [List.cons_append]
        exact congrArg (List.cons k) h1
      · rw [h2]
        simp
      · intro _
        refine h3 ?_
        have := hc.2
        simp only [List.length_append, List.length_singleton]
        omega
    · have hred : refill voice (k :: rest) pend = (k :: rest, pend, []) := by
        simp [refill, hc]
      rw [hred]
      exact ⟨rfl, by simp, fun h => h⟩

/-- The keys of freshly constructed requests are the ids they were built
from. -/
theorem map_key_map_mkReq (voice : String) (l : List VoxKey) :
    (l.map (mkReq voice)).map (fun r => r.key) = l := by
  induction l with
  | nil => rfl
  | cons a t ih => simp [mkReq, ih]

/-- Completing a pending request in place does not change the queue's
keys. -/
theorem map_key_set (l : List VoxRequest) (i : Nat) (r r' : VoxRequest)
    (hget : l.get? i = some r) (hkey : r'.key = r.key) :
    (l.set i r').map (fun x => x.key) = l.map (fun x => x.key) := by
  induction l generalizing i with
  | nil => simp at hget
  | cons a t ih =>
    cases i with
    | zero =>
      have : a = r := by simpa using hget
      subst this
      simp [hkey]
    | succ n =>
      have hget' : t.get? n = some r := hget
      simpa using ih n hget'


/-- stop preserves the run invariant. -/
theorem speakInv_stopFn (ids0 : List VoxKey) (s : EngineState) (h : SpeakInv ids0 s) :
    SpeakInv ids0 (stopFn s).1 := by
  obtain ⟨h1, h2, consumed, hc, hpl⟩ := h
  refine ⟨?_, h2, consumed ++ s.pendingReqs.map (fun r => r.key), ?_, ?_⟩
  · intro rest hrest
    simp [stopFn] at hrest
  · show s.fetchedLog = _ ++ ([] : List VoxRequest).map (fun r => r.key)
    simpa using hc
  · exact hpl.trans (List.sublist_append_left _ _)

/-- playNext preserves the run invariant. -/
theorem speakInv_playNextFn (ids0 : List VoxKey) (s : EngineState) (h : SpeakInv ids0 s) :
    SpeakInv ids0 (playNextFn s).1 := by
  obtain ⟨h1, h2, consumed, hc, hpl⟩ := h
  obtain ⟨sh, hsh, hsub, _⟩ := playNextAux_shape s.pendingReqs s.currentBufNode
  refine ⟨h1, h2, consumed ++ sh.map (fun r => r.key), ?_, ?_⟩
  · show s.fetchedLog
        = _ ++ ((playNextAux s.pendingReqs s.currentBufNode).1).map (fun r => r.key)
    rw [hsh] at hc
    rw [hc]
    simp [List.append_assoc]
  · show List.Sublist (s.playedLog ++ (playNextAux s.pendingReqs s.currentBufNode).2.2) _
    exact hpl.append hsub

/-- The state update performed by the pump's refill step preserves the
run invariant, stated over an arbitrary split of the ids into a fetched
prefix and a remaining suffix. -/
theorem speakInv_refill_update (ids0 ids fetched rest0 : List VoxKey) (voice : String)
    (newpend : List VoxRequest) (p : EngineState)
    (hsplit : ids = fetched ++ rest0)
    (hpend : newpend = p.pendingReqs ++ fetched.map (mkReq voice))
    (hids0 : ids0 = p.fetchedLog ++ ids)
    (h3 : ∃ consumed, p.fetchedLog = consumed ++ p.pendingReqs.map (fun r => r.key) ∧
      List.Sublist p.playedLog consumed) :
    SpeakInv ids0
      { p with currentIds := some rest0, pendingReqs := newpend
             , fetchedLog := p.fetchedLog ++ fetched } := by
  obtain ⟨consumed, hc, hpl⟩ := h3
  refine ⟨?_, ?_, consumed, ?_, hpl⟩
  · intro rest hrest
    have hh : some rest0 = some rest := hrest
    obtain rfl := Option.some.inj hh
    rw [hids0, hsplit]
    simp [List.append_assoc]
  · exact ⟨rest0, by rw [hids0, hsplit]; simp [List.append_assoc]⟩
  · show p.fetchedLog ++ fetched = consumed ++ newpend.map (fun r => r.key)
    rw [hc, hpend, List.map_append, map_key_map_mkReq]
    simp [List.append_assoc]

/-- The pump body preserves the run invariant. -/
theorem speakInv_pumpCore (ids0 ids : List VoxKey) (voice : String) (s : EngineState)
    (hids : s.currentIds = some ids) (h : SpeakInv ids0 s) :
    SpeakInv ids0 (pumpCore ids voice s).1 := by
  obtain ⟨h1, h2, h3⟩ := speakInv_playNextFn ids0 s h
  obtain ⟨hr1, hr2, _⟩ := refill_shape voice ids (playNextFn s).1.pendingReqs
  have hids0 : ids0 = (playNextFn s).1.fetchedLog ++ ids := h1 ids hids
  have hs1 := speakInv_refill_update ids0 ids
    (refill voice ids (playNextFn s).1.pendingReqs).2.2
    (refill voice ids (playNextFn s).1.pendingReqs).1 voice
    (refill voice ids (playNextFn s).1.pendingReqs).2.1
    (playNextFn s).1 hr1 hr2 hids0 h3
  simp only [pumpCore]
  split
  · exact speakInv_stopFn ids0 _ hs1
  · exact hs1

/-- The pump preserves the run invariant. -/
theorem speakInv_pumpFn (ids0 : List VoxKey) (s : EngineState) (h : SpeakInv ids0 s) :
    SpeakInv ids0 (pumpFn s).1 := by
  obtain ⟨spk, armed, pend, cids, cv, cs, cbn, fl, pl⟩ := s
  cases spk
  · simpa [pumpFn] using h
  · cases cids with
    | none => simpa [pumpFn] using h
    | some ids =>
      cases cv with
      | none => simpa [pumpFn] using h
      | some voice => exact speakInv_pumpCore ids0 ids voice _ rfl h

/-- Every non-speak event preserves the run invariant. -/
theorem speakInv_step (ids0 : List VoxKey) (s : EngineState) (e : Event)
    (h : SpeakInv ids0 s) (he : e.isSpeak = false) : SpeakInv ids0 (step s e).1 := by
  cases e with
  | pumpTick =>
    by_cases ha : s.pumpTimerArmed = true
    · have heq : step s Event.pumpTick = pumpFn { s with pumpTimerArmed := false } := by
        simp [step, ha]
      rw [heq]
      exact speakInv_pumpFn ids0 _ h
    · have heq : step s Event.pumpTick = (s, []) := by
        simp [step, ha]
      rw [heq]
      exact h
  | reqComplete i b =>
    rcases hg : s.pendingReqs.get? i with _ | r
    · have hg2 : s.pendingReqs[i]? = none := by
        rw [← List.get?_eq_getElem?]
        exact hg
      have heq : step s (Event.reqComplete i b) = (s, []) := by
        simp [step, hg2]
      rw [heq]
      exact h
    · have hg2 : s.pendingReqs[i]? = some r := by
        rw [← List.get?_eq_getElem?]
        exact hg
      by_cases hd : r.isDone = true
      · have heq : step s (Event.reqComplete i b) = (s, []) := by
          simp [step, hg2, hd]
        rw [heq]
        exact h
      · have heq : step s (Event.reqComplete i b)
            = ({ s with pendingReqs :=
                  s.pendingReqs.set i { r with isDone := true, buffer := b } }, []) := by
          simp [step, hg2, hd]
        rw [heq]
        obtain ⟨h1, h2, consumed, hc, hpl⟩ := h
        refine ⟨h1, h2, consumed, ?_, hpl⟩
        show s.fetchedLog = consumed ++
          (s.pendingReqs.set i { r with isDone := true, buffer := b }).map
            (fun x => x.key)
        rw [map_key_set s.pendingReqs i r { r with isDone := true, buffer := b } hg rfl]
        exact hc
  | bufEnded =>
    rcases hn : s.currentBufNode with _ | c
    · have heq : step s Event.bufEnded = (s, []) := by
        simp [step, hn]
      rw [heq]
      exact h
    · by_cases hsp : s.isSpeaking = false
      · have heq : step s Event.bufEnded = (s, []) := by
          simp [step, hn, hsp]
        rw [heq]
        exact h
      · have heq : step s Event.bufEnded
            = playNextFn { s with currentBufNode := none } := by
          simp [step, hn, hsp]
        rw [heq]
        exact speakInv_playNextFn ids0 _ h
  | stopCall => exact speakInv_stopFn ids0 s h
  | speakCall ids voice settings => simp [Event.isSpeak] at he

/-- Runs of non-speak events preserve the run invariant. -/
theorem speakInv_run (ids0 : List VoxKey) : ∀ (es : List Event) (s : EngineState),
    SpeakInv ids0 s → (∀ e ∈ es, e.isSpeak = false) → SpeakInv ids0 (run s es) := by
  intro es
  induction es with
  | nil => exact fun s h _ => h
  | cons e tl ih =>
    intro s h hall
    exact ih _ (speakInv_step ids0 s e h (hall e (by simp)))
      (fun e' hm => hall e' (by simp [hm]))

/-- The run invariant holds right after speak is called on a fresh
engine. -/
theorem speakInv_speak_init (ids : List VoxKey) (voice : String) (st : SpeechSettings) :
    SpeakInv ids (speakFn ids voice st initState).1 := by
  have h0 : SpeakInv ids
      { initState with
          isSpeaking := true, currentIds := some ids,
          currentVoice := some voice, currentSettings := some st,
          fetchedLog := [], playedLog := [] } := by
    refine ⟨?_, ⟨ids, rfl⟩, [], rfl, List.nil_sublist []⟩
    intro rest hrest
    have hh : some ids = some rest := hrest
    obtain rfl := Option.some.inj hh
    rfl
  exact speakInv_pumpFn ids _ h0


/-- Counterexample to C1 as stated: speaking the one-key sequence
consisting of the silence key 0.5 s issues a fetch for that silence key
(the pump's refill loop does not special-case numeric keys), even though
the sequence has no non-silence keys; no scheduled-delay handling exists
in the engine. -/
theorem silence_key_fetch_counterexample :
    (speakFn [VoxKey.silence 500] "voice" { volume := 1 } initState).1.fetchedLog
        = [VoxKey.silence 500] ∧
    Effect.fetch (VoxKey.silence 500)
        ∈ (speakFn [VoxKey.silence 500] "voice" { volume := 1 } initState).2 ∧
    (VoxKey.silence 500).isSilence = true ∧
    nonSilenceKeys [VoxKey.silence 500] = [] := by
  refine ⟨by decide, by decide, by decide, by decide⟩

/-- C1 amended: in any run of the event loop after speak, the engine
issues one fetch per consumed key in the original order, with numeric
silence keys treated like any other key: the fetch log is always an
initial segment of the spoken sequence, and the unconsumed ids are
exactly the rest of it (no filtering of silence keys, and no
scheduled-delay handling). -/
theorem fetched_log_initial_segment (ids : List VoxKey) (voice : String)
    (st : SpeechSettings) (es : List Event)
    (hes : ∀ e ∈ es, e.isSpeak = false) :
    (∃ tail, ids = (run (speakFn ids voice st initState).1 es).fetchedLog ++ tail) ∧
    (∀ rest, (run (speakFn ids voice st initState).1 es).currentIds = some rest →
      ids = (run (speakFn ids voice st initState).1 es).fetchedLog ++ rest) := by
  obtain ⟨h1, h2, _⟩ :=
    speakInv_run ids es (speakFn ids voice st initState).1
      (speakInv_speak_init ids voice st) hes
  exact ⟨h2, h1⟩

/-- Witness for the amended C1 at a concrete run. -/
theorem fetched_log_initial_segment_witness :
    (∀ e ∈ ([Event.pumpTick] : List Event), e.isSpeak = false) ∧
    (∃ tail, [VoxKey.seg "a", VoxKey.silence 200]
        = (run (speakFn [VoxKey.seg "a", VoxKey.silence 200] "voice" { volume := 1 }
            initState).1 [Event.pumpTick]).fetchedLog ++ tail) := by
  refine ⟨by decide, ?_⟩
  exact (fetched_log_initial_segment [VoxKey.seg "a", VoxKey.silence 200] "voice"
    { volume := 1 } [Event.pumpTick] (by decide)).1

/-- C2: for every sequence spoken and every order in which the in-flight
fetches complete (the events of the run are arbitrary, so completions may
arrive in any order), the keys started playing are an ordered sublist of
the spoken sequence and of the fetch log: playNext only ever dequeues the
head of the pending FIFO queue, so a later-issued asset is never played
before an earlier-issued one. -/
theorem playback_in_input_order (ids : List VoxKey) (voice : String)
    (st : SpeechSettings) (es : List Event)
    (hes : ∀ e ∈ es, e.isSpeak = false) :
    List.Sublist (run (speakFn ids voice st initState).1 es).playedLog
      (run (speakFn ids voice st initState).1 es).fetchedLog ∧
    List.Sublist (run (speakFn ids voice st initState).1 es).playedLog ids := by
  obtain ⟨h1, h2, consumed, hc, hpl⟩ :=
    speakInv_run ids es (speakFn ids voice st initState).1
      (speakInv_speak_init ids voice st) hes
  have hfetch : List.Sublist (run (speakFn ids voice st initState).1 es).playedLog
      (run (speakFn ids voice st initState).1 es).fetchedLog := by
    rw [hc]
    exact hpl.trans (List.sublist_append_left _ _)
  refine ⟨hfetch, ?_⟩
  obtain ⟨tail, htail⟩ := h2
  have hsub2 : List.Sublist (run (speakFn ids voice st initState).1 es).playedLog
      ((run (speakFn ids voice st initState).1 es).fetchedLog ++ tail) :=
    hfetch.trans (List.sublist_append_left _ _)
  rw [← htail] at hsub2
  exact hsub2

/-- Witness for C2 at a concrete run. -/
theorem playback_in_input_order_witness :
    (∀ e ∈ ([Event.pumpTick] : List Event), e.isSpeak = false) ∧
    List.Sublist
      (run (speakFn [VoxKey.seg "a"] "voice" { volume := 1 } initState).1
        [Event.pumpTick]).playedLog
      [VoxKey.seg "a"] := by
  refine ⟨by decide, ?_⟩
  exact (playback_in_input_order [VoxKey.seg "a"] "voice" { volume := 1 }
    [Event.pumpTick] (by decide)).2

/-- stop empties the pending queue. -/
theorem pendingLen_stopFn (s : EngineState) : (stopFn s).1.pendingReqs.length ≤ 10 := by
  simp [stopFn]

/-- playNext never grows the pending queue. -/
theorem pendingLen_playNextFn (s : EngineState) :
    (playNextFn s).1.pendingReqs.length ≤ s.pendingReqs.length := by
  obtain ⟨sh, _, _, h3⟩ := playNextAux_shape s.pendingReqs s.currentBufNode
  exact h3

/-- The pump body keeps the pending queue within the bound of ten. -/
theorem pendingLen_pumpCore (ids : List VoxKey) (voice : String) (s : EngineState)
    (h : s.pendingReqs.length ≤ 10) :
    (pumpCore ids voice s).1.pendingReqs.length ≤ 10 := by
  have hp : (playNextFn s).1.pendingReqs.length ≤ 10 :=
    le_trans (pendingLen_playNextFn s) h
  obtain ⟨_, _, hlen⟩ := refill_shape voice ids (playNextFn s).1.pendingReqs
  have h10 := hlen hp
  simp only [pumpCore]
  split
  · exact pendingLen_stopFn _
  · exact h10

/-- The pump keeps the pending queue within the bound of ten. -/
theorem pendingLen_pumpFn (s : EngineState) (h : s.pendingReqs.length ≤ 10) :
    (pumpFn s).1.pendingReqs.length ≤ 10 := by
  obtain ⟨spk, armed, pend, cids, cv, cs, cbn, fl, pl⟩ := s
  cases spk
  · simpa [pumpFn] using h
  · cases cids with
    | none => simpa [pumpFn] using h
    | some ids =>
      cases cv with
      | none => simpa [pumpFn] using h
      | some voice => exact pendingLen_pumpCore ids voice _ h

/-- speak keeps the pending queue within the bound of ten. -/
theorem pendingLen_speakFn (ids : List VoxKey) (voice : String) (st : SpeechSettings)
    (s : EngineState) (h : s.pendingReqs.length ≤ 10) :
    (speakFn ids voice st s).1.pendingReqs.length ≤ 10 := by
  have hbase : (if s.isSpeaking = true then stopFn s else (s, [])).1.pendingReqs.length
      ≤ 10 := by
    split
    · exact pendingLen_stopFn s
    · exact h
  exact pendingLen_pumpFn _ hbase

/-- Every event keeps the pending queue within the bound of ten. -/
theorem pendingLen_step (s : EngineState) (e : Event) (h : s.pendingReqs.length ≤ 10) :
    (step s e).1.pendingReqs.length ≤ 10 := by
  cases e with
  | pumpTick =>
    by_cases ha : s.pumpTimerArmed = true
    · have heq : step s Event.pumpTick = pumpFn { s with pumpTimerArmed := false } := by
        simp [step, ha]
      rw [heq]
      exact pendingLen_pumpFn _ h
    · have heq : step s Event.pumpTick = (s, []) := by
        simp [step, ha]
      rw [heq]
      exact h
  | reqComplete i b =>
    rcases hg : s.pendingReqs[i]? with _ | r
    · have heq : step s (Event.reqComplete i b) = (s, []) := by
        simp [step, hg]
      rw [heq]
      exact h
    · by_cases hd : r.isDone = true
      · have heq : step s (Event.reqComplete i b) = (s, []) := by
          simp [step, hg, hd]
        rw [heq]
        exact h
      · have heq : step s (Event.reqComplete i b)
            = ({ s with pendingReqs :=
                  s.pendingReqs.set i { r with isDone := true, buffer := b } }, []) := by
          simp [step, hg, hd]
        rw [heq]
        simpa using h
  | bufEnded =>
    rcases hn : s.currentBufNode with _ | c
    · have heq : step s Event.bufEnded = (s, []) := by
        simp [step, hn]
      rw [heq]
      exact h
    · by_cases hsp : s.isSpeaking = false
      · have heq : step s Event.bufEnded = (s, []) := by
          simp [step, hn, hsp]
        rw [heq]
        exact h
      · have heq : step s Event.bufEnded
            = playNextFn { s with currentBufNode := none } := by
          simp [step, hn, hsp]
        rw [heq]
        exact le_trans (pendingLen_playNextFn _) h
  | stopCall => exact pendingLen_stopFn s
  | speakCall ids voice settings => exact pendingLen_speakFn ids voice settings s h

/-- C3: in every state reachable by any run of the event loop from a
fresh engine, the number of concurrently pending requests never exceeds
ten: the refill loop only pushes while the queue is below the bound and
no other operation grows the queue. -/
theorem pending_never_exceeds_ten : ∀ es : List Event,
    (run initState es).pendingReqs.length ≤ 10 := by
  have hgen : ∀ (es : List Event) (s : EngineState), s.pendingReqs.length ≤ 10 →
      (run s es).pendingReqs.length ≤ 10 := by
    intro es
    induction es with
    | nil => exact fun s h => h
    | cons e tl ih => exact fun s h => ih _ (pendingLen_step s e h)
  exact fun es => hgen es initState (by simp [initState])


/-- stop leaves a clean non-speaking state. -/
theorem nsc_stopFn (s : EngineState) : NotSpeakingClean (stopFn s).1 :=
  fun _ => ⟨rfl, rfl, rfl, rfl, rfl, rfl⟩

/-- The pump body leaves a clean state when entered while speaking. -/
theorem nsc_pumpCore (ids : List VoxKey) (voice : String) (s : EngineState)
    (hsp : s.isSpeaking = true) : NotSpeakingClean (pumpCore ids voice s).1 := by
  simp only [pumpCore]
  split
  · exact nsc_stopFn _
  · intro hf
    have hf2 : s.isSpeaking = false := hf
    rw [hsp] at hf2
    exact absurd hf2 (by decide)

/-- The pump preserves cleanliness. -/
theorem nsc_pumpFn (s : EngineState) (h : NotSpeakingClean s) :
    NotSpeakingClean (pumpFn s).1 := by
  obtain ⟨spk, armed, pend, cids, cv, cs, cbn, fl, pl⟩ := s
  cases spk
  · exact h
  · cases cids with
    | none => exact h
    | some ids =>
      cases cv with
      | none => exact h
      | some voice => exact nsc_pumpCore ids voice _ rfl

/-- speak leaves a clean state. -/
theorem nsc_speakFn (ids : List VoxKey) (voice : String) (st : SpeechSettings)
    (s : EngineState) : NotSpeakingClean (speakFn ids voice st s).1 :=
  nsc_pumpCore ids voice _ rfl

/-- Every event preserves cleanliness. -/
theorem nsc_step (s : EngineState) (e : Event) (h : NotSpeakingClean s) :
    NotSpeakingClean (step s e).1 := by
  cases e with
  | pumpTick =>
    by_cases ha : s.pumpTimerArmed = true
    · have heq : step s Event.pumpTick = pumpFn { s with pumpTimerArmed := false } := by
        simp [step, ha]
      rw [heq]
      refine nsc_pumpFn _ ?_
      intro hf
      obtain ⟨_, hb, hc, hd2, he2, hf2⟩ := h hf
      exact ⟨rfl, hb, hc, hd2, he2, hf2⟩
    · have heq : step s Event.pumpTick = (s, []) := by
        simp [step, ha]
      rw [heq]
      exact h
  | reqComplete i b =>
    rcases hg : s.pendingReqs[i]? with _ | r
    · have heq : step s (Event.reqComplete i b) = (s, []) := by
        simp [step, hg]
      rw [heq]
      exact h
    · by_cases hd : r.isDone = true
      · have heq : step s (Event.reqComplete i b) = (s, []) := by
          simp [step, hg, hd]
        rw [heq]
        exact h
      · have heq : step s (Event.reqComplete i b)
            = ({ s with pendingReqs :=
                  s.pendingReqs.set i { r with isDone := true, buffer := b } }, []) := by
          simp [step, hg, hd]
        rw [heq]
        intro hf
        obtain ⟨ha2, hp2, hn2, hi2, hv2, hs2⟩ := h hf
        rw [hp2] at hg
        simp at hg
  | bufEnded =>
    rcases hn : s.currentBufNode with _ | c
    · have heq : step s Event.bufEnded = (s, []) := by
        simp [step, hn]
      rw [heq]
      exact h
    · by_cases hsp : s.isSpeaking = false
      · have heq : step s Event.bufEnded = (s, []) := by
          simp [step, hn, hsp]
        rw [heq]
        exact h
      · have heq : step s Event.bufEnded
            = playNextFn { s with currentBufNode := none } := by
          simp [step, hn, hsp]
        rw [heq]
        intro hf
        have hf2 : s.isSpeaking = false := hf
        exact absurd hf2 hsp
  | stopCall => exact nsc_stopFn s
  | speakCall ids voice settings => exact nsc_speakFn ids voice settings s

/-- Every state reachable from a fresh engine is clean. -/
theorem nsc_run : ∀ es : List Event, NotSpeakingClean (run initState es) := by
  have hgen : ∀ (es : List Event) (s : EngineState), NotSpeakingClean s →
      NotSpeakingClean (run s es) := by
    intro es
    induction es with
    | nil => exact fun s h => h
    | cons e tl ih => exact fun s h => ih _ (nsc_step s e h)
  exact fun es => hgen es initState (fun _ => ⟨rfl, rfl, rfl, rfl, rfl, rfl⟩)

/-- On a clean non-speaking state, stop is a no-op beyond clearing the
dead timer: the state is unchanged and the only effect is the timer
clear. -/
theorem stopFn_noop_of_clean (s : EngineState) (h : NotSpeakingClean s)
    (hf : s.isSpeaking = false) : stopFn s = (s, [Effect.clearPumpTimer]) := by
  obtain ⟨h1, h2, h3, h4, h5, h6⟩ := h hf
  obtain ⟨spk, armed, pend, cids, cv, cs, cbn, fl, pl⟩ := s
  obtain rfl : spk = false := hf
  obtain rfl : armed = false := h1
  obtain rfl : pend = [] := h2
  obtain rfl : cbn = none := h3
  obtain rfl : cids = none := h4
  obtain rfl : cv = none := h5
  obtain rfl : cs = none := h6
  rfl

/-- C4: stop in any engine state cancels the pump timer, cancels every
pending request, stops and disconnects the currently playing buffer node
with its completion callback detached, and clears all engine state; after
stop returns, no pump tick, in-flight completion, or playback-completion
event can fire or mutate engine state (each is a strict no-op on the
stopped state); and on any reachable non-speaking state, stop is a no-op
beyond clearing the dead timer. -/
theorem stop_spec :
    (∀ s : EngineState,
      (stopFn s).1.isSpeaking = false ∧
      (stopFn s).1.pumpTimerArmed = false ∧
      (stopFn s).1.pendingReqs = [] ∧
      (stopFn s).1.currentIds = none ∧
      (stopFn s).1.currentVoice = none ∧
      (stopFn s).1.currentSettings = none ∧
      (stopFn s).1.currentBufNode = none ∧
      Effect.clearPumpTimer ∈ (stopFn s).2 ∧
      (∀ r ∈ s.pendingReqs, Effect.cancelReq r.key ∈ (stopFn s).2) ∧
      (s.currentBufNode ≠ none →
        Effect.nodeStop ∈ (stopFn s).2 ∧ Effect.nodeDisconnect ∈ (stopFn s).2 ∧
          Effect.detachOnEnded ∈ (stopFn s).2) ∧
      (∀ (i : Nat) (b : Option Nat),
        step (stopFn s).1 (Event.reqComplete i b) = ((stopFn s).1, [])) ∧
      step (stopFn s).1 Event.pumpTick = ((stopFn s).1, []) ∧
      step (stopFn s).1 Event.bufEnded = ((stopFn s).1, [])) ∧
    (∀ es : List Event, (run initState es).isSpeaking = false →
      stopFn (run initState es) = (run initState es, [Effect.clearPumpTimer])) := by
  constructor
  · intro s
    refine ⟨rfl, rfl, rfl, rfl, rfl, rfl, rfl, ?_, ?_, ?_, fun i b => rfl, rfl, rfl⟩
    · show Effect.clearPumpTimer ∈
        [Effect.clearPumpTimer] ++ s.pendingReqs.map (fun r => Effect.cancelReq r.key)
          ++ (match s.currentBufNode with
              | some _ => [Effect.nodeStop, Effect.nodeDisconnect, Effect.detachOnEnded]
              | none => [])
      exact List.mem_append_left _ (List.mem_append_left _ (by simp))
    · intro r hr
      show Effect.cancelReq r.key ∈
        [Effect.clearPumpTimer] ++ s.pendingReqs.map (fun r => Effect.cancelReq r.key)
          ++ (match s.currentBufNode with
              | some _ => [Effect.nodeStop, Effect.nodeDisconnect, Effect.detachOnEnded]
              | none => [])
      exact List.mem_append_left _
        (List.mem_append_right _ (List.mem_map_of_mem _ hr))
    · intro hn
      rcases hb : s.currentBufNode with _ | c
      · exact absurd hb hn
      · refine ⟨?_, ?_, ?_⟩ <;>
        · show _ ∈ [Effect.clearPumpTimer]
              ++ s.pendingReqs.map (fun r => Effect.cancelReq r.key)
              ++ (match s.currentBufNode with
                  | some _ =>
                    [Effect.nodeStop, Effect.nodeDisconnect, Effect.detachOnEnded]
                  | none => [])
          rw [hb]
          exact List.mem_append_right _ (by simp)
  · intro es hf
    exact stopFn_noop_of_clean _ (nsc_run es) hf


/-- Witness for C4 at a concrete state with a pending request and a
playing node, and at the concrete reachable idle state of a fresh
engine. -/
theorem stop_spec_witness :
    (sampleStopState.currentBufNode ≠ none) ∧
    (mkReq "v" (VoxKey.seg "a") : VoxRequest) ∈ sampleStopState.pendingReqs ∧
    Effect.cancelReq (VoxKey.seg "a") ∈ (stopFn sampleStopState).2 ∧
    Effect.nodeStop ∈ (stopFn sampleStopState).2 ∧
    (stopFn sampleStopState).1.isSpeaking = false ∧
    (run initState []).isSpeaking = false ∧
    stopFn (run initState []) = (run initState [], [Effect.clearPumpTimer]) := by
  refine ⟨by decide, by decide, ?_, ?_, ?_, by decide, ?_⟩
  · exact (stop_spec.1 sampleStopState).2.2.2.2.2.2.2.2.1
      (mkReq "v" (VoxKey.seg "a")) (by decide)
  · exact ((stop_spec.1 sampleStopState).2.2.2.2.2.2.2.2.2.1 (by decide)).1
  · exact (stop_spec.1 sampleStopState).1
  · exact stop_spec.2 [] (by decide)

/-- C5: while speaking with ids and a voice, a pump tick transitions the
engine back to idle (calling stop instead of re-arming) exactly when,
after the tick's playNext and refill, the queue of unconsumed ids is
empty and nothing is currently playing; in that case it also disarms the
timer and drops the ids, and otherwise the engine stays speaking with the
pump timer re-armed. -/
theorem pump_idle_iff (s : EngineState) (ids : List VoxKey) (voice : String)
    (hsp : s.isSpeaking = true) (hids : s.currentIds = some ids)
    (hv : s.currentVoice = some voice) :
    ((pumpFn s).1.isSpeaking = false ↔
      ((refill voice ids (playNextFn s).1.pendingReqs).1 = [] ∧
        (playNextFn s).1.currentBufNode = none)) ∧
    (((refill voice ids (playNextFn s).1.pendingReqs).1 = [] ∧
        (playNextFn s).1.currentBufNode = none) →
      (pumpFn s).1.pumpTimerArmed = false ∧ (pumpFn s).1.currentIds = none) ∧
    (¬((refill voice ids (playNextFn s).1.pendingReqs).1 = [] ∧
        (playNextFn s).1.currentBufNode = none) →
      (pumpFn s).1.isSpeaking = true ∧ (pumpFn s).1.pumpTimerArmed = true) := by
  have hred : pumpFn s = pumpCore ids voice s := by
    obtain ⟨spk, armed, pend, cids, cv, cs, cbn, fl, pl⟩ := s
    obtain rfl : spk = true := hsp
    obtain rfl : cids = some ids := hids
    obtain rfl : cv = some voice := hv
    rfl
  rw [hred]
  simp only [pumpCore]
  split
  next hcond =>
    have hmc : (refill voice ids (playNextFn s).1.pendingReqs).1 = [] ∧
        (playNextFn s).1.currentBufNode = none :=
      ⟨List.length_eq_zero.mp (Nat.le_zero.mp hcond.1), hcond.2⟩
    refine ⟨iff_of_true rfl hmc, fun _ => ⟨rfl, rfl⟩, fun hn => absurd hmc hn⟩
  next hcond =>
    have hnm : ¬((refill voice ids (playNextFn s).1.pendingReqs).1 = [] ∧
        (playNextFn s).1.currentBufNode = none) := by
      intro hmc
      exact hcond ⟨by rw [hmc.1]; exact Nat.le_refl 0, hmc.2⟩
    refine ⟨iff_of_false ?_ hnm, fun hmc => absurd hmc hnm, fun _ => ⟨hsp, rfl⟩⟩
    intro hf
    have hf2 : s.isSpeaking = false := hf
    rw [hsp] at hf2
    exact absurd hf2 (by decide)

/-- Witness for C5: at a concrete speaking state whose single id gets
consumed by the tick with nothing playing, the pump transitions to
idle. -/
theorem pump_idle_iff_witness :
    (sampleStopState.isSpeaking = true) ∧
    (sampleStopState.currentIds = some [VoxKey.seg "b"]) ∧
    (sampleStopState.currentVoice = some "v") ∧
    ((pumpFn sampleStopState).1.isSpeaking = false ↔
      ((refill "v" [VoxKey.seg "b"] (playNextFn sampleStopState).1.pendingReqs).1 = [] ∧
        (playNextFn sampleStopState).1.currentBufNode = none)) := by
  refine ⟨by decide, by decide, by decide, ?_⟩
  exact (pump_idle_iff sampleStopState [VoxKey.seg "b"] "v"
    (by decide) (by decide) (by decide)).1
